import Mathlib

/-!
Verification of the `vim_mini` modal keystroke engine
(`src/vim/src/engine.rs` with `types.rs`, `key.rs`, `traits.rs`)
against its natural-language specification.

The engine is embedded shallowly: Rust `u32` values are modelled as `Nat`
(the engine only uses saturating arithmetic and `min`/`max`-style clamping,
which we reproduce explicitly; `Counts::push_digit` saturates at `u32::MAX`,
which is modelled with an explicit bound), host capabilities (`TextOps`) are
a structure of functions, and `Engine::handle_event`'s `&mut self` becomes
explicit state passing: the Lean function returns the new engine together
with the `(Position, Vec<Command>)` pair the Rust method returns.
-/

namespace VimMini

/-- `types.rs` `Position`: zero-based line and grapheme column. -/
structure Pos where
  line : Nat
  col : Nat
deriving DecidableEq

/-- The lexicographic order on positions derived by Rust's
`#[derive(PartialOrd, Ord)]` on `Position { line, col }`. -/
def posLe (a b : Pos) : Bool :=
  Nat.blt a.line b.line || (a.line == b.line && Nat.ble a.col b.col)

/-- `types.rs` `Range`: a half-open interval of positions.  The Rust field
`end` is a Lean keyword, so it is named `stop` here. -/
structure Range where
  start : Pos
  stop : Pos
deriving DecidableEq

/-- `types.rs` `VisualKind`. -/
inductive VisualKind where
  | CharWise
  | LineWise
deriving DecidableEq

/-- `types.rs` `Mode`. -/
inductive Mode where
  | Normal
  | Insert
  | Visual (kind : VisualKind)
  | SearchPrompt
deriving DecidableEq

/-- `types.rs` `Selection` (Rust field `end` renamed to `stop`). -/
structure Selection where
  start : Pos
  stop : Pos
  kind : VisualKind
deriving DecidableEq

/-- `types.rs` `Command` (Rust field `at` of `InsertText` is a Lean keyword,
renamed `at_`). -/
inductive Command where
  | SetCursor (pos : Pos)
  | SetSelection (sel : Option Selection)
  | Delete (range : Range)
  | InsertText (at_ : Pos) (text : String)
deriving DecidableEq

/-- `key.rs` `KeyCode`. -/
inductive KeyCode where
  | Char (c : Char)
  | Esc
  | Enter
  | Backspace
deriving DecidableEq

/-- `key.rs` `KeyEvent`.  The modifier bitset is carried but never read by
`engine.rs` (the engine matches only on `ke.code`), so it is a bare `Nat`. -/
structure KeyEvent where
  code : KeyCode
  mods : Nat
deriving DecidableEq

/-- `key.rs` `InputEvent`. -/
inductive InputEvent where
  | key (ke : KeyEvent)
  | receivedChar (c : Char)
deriving DecidableEq

/-- Event-construction helper: a plain (unmodified) key press of character
`c`, as the test helpers `key(c)` build it. -/
def keyC (c : Char) : InputEvent := .key ⟨.Char c, 0⟩

/-- A plain `Esc` key press. -/
def keyEsc : InputEvent := .key ⟨.Esc, 0⟩

/-- A plain `Enter` key press. -/
def keyEnter : InputEvent := .key ⟨.Enter, 0⟩

/-- `u32::MAX`, the saturation bound of `Counts::push_digit`. -/
def U32MAX : Nat := 4294967295

/-- `engine.rs` `Counts`: the accumulated numeric prefix. -/
structure Counts where
  current : Option Nat
deriving DecidableEq

/-- `Counts::push_digit`: `current.unwrap_or(0).saturating_mul(10).saturating_add(d)`. -/
def Counts.push_digit (cs : Counts) (d : Nat) : Counts :=
  ⟨some (min (min ((cs.current.getD 0) * 10) U32MAX + d) U32MAX)⟩

/-- `Counts::take_or`: `self.current.take().unwrap_or(default).max(1)`;
returns the consumed value together with the emptied counter. -/
def Counts.take_or (cs : Counts) (dflt : Nat) : Nat × Counts :=
  (max (cs.current.getD dflt) 1, ⟨none⟩)

/-- `engine.rs` `PendingKey`. -/
inductive PendingKey where
  | none
  | G
  | D
  | F (before : Bool)
deriving DecidableEq

/-- `engine.rs` `Operator`. -/
inductive Operator where
  | Delete
  | Yank
deriving DecidableEq

/-- `engine.rs` `Engine` state. -/
structure Engine where
  mode : Mode
  preferred_col : Option Nat
  counts : Counts
  pending : PendingKey
  op_pending : Option Operator
  visual_anchor : Option Pos
deriving DecidableEq

/-- `engine.rs` `EngineSnapshot`. -/
structure EngineSnapshot where
  mode : Mode
  preferred_col : Option Nat
  pending_count : Option Nat
deriving DecidableEq

/-- `engine.rs` `EngineBuilder` (its only field is the initial mode; the
Rust builder method `mode(self, mode)` is the structure constructor here). -/
structure EngineBuilder where
  mode : Mode
deriving DecidableEq

/-- `EngineBuilder::build`. -/
def EngineBuilder.build (b : EngineBuilder) : Engine :=
  { mode := b.mode
    preferred_col := none
    counts := ⟨none⟩
    pending := .none
    op_pending := none
    visual_anchor := none }

/-- `Engine::new` = `EngineBuilder::default().build()` with default mode Normal. -/
def Engine.new : Engine := (EngineBuilder.mk .Normal).build

/-- `Engine::snapshot`. -/
def Engine.snapshot (e : Engine) : EngineSnapshot :=
  ⟨e.mode, e.preferred_col, e.counts.current⟩

/-- `traits.rs` `TextOps`: the host text capability, as a structure of
functions (the engine consumes it read-only). -/
structure TextOps where
  line_count : Nat
  line_len : Nat → Nat
  move_left : Pos → Nat → Pos
  move_right : Pos → Nat → Pos
  move_up : Pos → Nat → Option Nat → Pos
  move_down : Pos → Nat → Option Nat → Pos
  line_start : Nat → Pos
  line_end : Nat → Pos
  next_word_start : Pos → Nat → Pos
  prev_word_start : Pos → Nat → Pos
  next_paragraph_start : Pos → Nat → Pos
  prev_paragraph_start : Pos → Nat → Pos
  find_in_line : Pos → Char → Bool → Nat → Option Pos
  slice_to_string : Range → String
  search_forward : Pos → String → Bool → Option Pos
  search_backward : Pos → String → Bool → Option Pos

/-- `TextOps::clamp`, the trait's provided default implementation
(`line ← min(line, line_count-1)`, `col ← min(col, line_len(line))`,
with saturating subtraction). -/
def TextOps.clamp (t : TextOps) (pos : Pos) : Pos :=
  let lastLine := t.line_count - 1
  let line := min pos.line lastLine
  ⟨line, min pos.col (t.line_len line)⟩

/-- `Engine::apply_delete`: normalize the two endpoints into a
well-ordered range and emit a single `Delete`. -/
def apply_delete (s e : Pos) : List Command :=
  if posLe s e then [.Delete ⟨s, e⟩] else [.Delete ⟨e, s⟩]

/-- Rust `char::is_ascii_digit`. -/
def isAsciiDigit (c : Char) : Bool :=
  Nat.ble 48 c.toNat && Nat.ble c.toNat 57

/-- Normal mode, step 4 of `handle_event`: the main key table
(`engine.rs` lines 313-489), reached after pending-key continuation,
digit accumulation and operator completion have all declined the key. -/
def normalKeyTable (T : TextOps) (e : Engine) (cursor : Pos) (kc : KeyCode) :
    Engine × Pos × List Command :=
  match kc with
  | .Char 'h' =>
      let r := e.counts.take_or 1
      let pos := T.move_left cursor r.1
      ({e with counts := r.2, preferred_col := none}, pos, [.SetCursor pos])
  | .Char 'l' =>
      let r := e.counts.take_or 1
      let pos := T.move_right cursor r.1
      ({e with counts := r.2, preferred_col := none}, pos, [.SetCursor pos])
  | .Char 'k' =>
      let r := e.counts.take_or 1
      let pos := T.move_up cursor r.1 e.preferred_col
      ({e with counts := r.2, preferred_col := some pos.col}, pos, [.SetCursor pos])
  | .Char 'j' =>
      let r := e.counts.take_or 1
      let pos := T.move_down cursor r.1 e.preferred_col
      ({e with counts := r.2, preferred_col := some pos.col}, pos, [.SetCursor pos])
  | .Char '0' =>
      let pos := T.line_start cursor.line
      ({e with counts := ⟨none⟩, preferred_col := some 0}, pos, [.SetCursor pos])
  | .Char '$' =>
      let pos := T.line_end cursor.line
      ({e with counts := ⟨none⟩, preferred_col := none}, pos, [.SetCursor pos])
  | .Char 'g' => ({e with pending := .G}, cursor, [])
  | .Char 'G' =>
      let target := match e.counts.current with
        | some n => if n > 0 then min (n - 1) (T.line_count - 1) else T.line_count - 1
        | none => T.line_count - 1
      let pos := T.line_start target
      ({e with counts := ⟨none⟩, preferred_col := some 0}, pos, [.SetCursor pos])
  | .Char 'd' => ({e with pending := .D, op_pending := some .Delete}, cursor, [])
  | .Char 'y' => ({e with op_pending := some .Yank}, cursor, [])
  | .Char 'x' =>
      let r := e.counts.take_or 1
      let endp := T.move_right cursor r.1
      if endp = cursor then ({e with counts := r.2}, cursor, [])
      else ({e with counts := r.2}, cursor, apply_delete cursor endp)
  | .Char 'v' =>
      ({e with
          mode := .Visual .CharWise
          visual_anchor := some cursor
          pending := .none
          op_pending := none}, cursor,
       [.SetSelection (some ⟨cursor, cursor, .CharWise⟩)])
  | .Char 'V' =>
      let s := T.line_start cursor.line
      let en := T.line_end cursor.line
      ({e with
          mode := .Visual .LineWise
          visual_anchor := some cursor
          pending := .none
          op_pending := none}, cursor,
       [.SetSelection (some ⟨s, en, .LineWise⟩)])
  | .Char 'w' =>
      let r := e.counts.take_or 1
      let pos := T.next_word_start cursor r.1
      ({e with counts := r.2, preferred_col := none}, pos, [.SetCursor pos])
  | .Char 'b' =>
      let r := e.counts.take_or 1
      let pos := T.prev_word_start cursor r.1
      ({e with counts := r.2, preferred_col := none}, pos, [.SetCursor pos])
  | .Char '{' =>
      let r := e.counts.take_or 1
      let pos := T.prev_paragraph_start cursor r.1
      ({e with counts := r.2, preferred_col := some 0}, pos, [.SetCursor pos])
  | .Char '}' =>
      let r := e.counts.take_or 1
      let pos := T.next_paragraph_start cursor r.1
      ({e with counts := r.2, preferred_col := some 0}, pos, [.SetCursor pos])
  | .Char 'f' => ({e with pending := .F false}, cursor, [])
  | .Char 't' => ({e with pending := .F true}, cursor, [])
  | .Char 'i' =>
      ({e with mode := .Insert, counts := ⟨none⟩, pending := .none}, cursor, [])
  | .Char 'a' =>
      let pos := T.move_right cursor 1
      ({e with mode := .Insert, counts := ⟨none⟩, pending := .none}, pos, [.SetCursor pos])
  | .Char 'I' =>
      let pos := T.line_start cursor.line
      ({e with
          mode := .Insert
          counts := ⟨none⟩
          pending := .none
          preferred_col := some 0}, pos, [.SetCursor pos])
  | .Char 'A' =>
      let p1 := T.line_end cursor.line
      let pos := T.move_right p1 1
      ({e with
          mode := .Insert
          counts := ⟨none⟩
          pending := .none
          preferred_col := none}, pos, [.SetCursor pos])
  | .Esc =>
      ({e with counts := ⟨none⟩, pending := .none, preferred_col := none}, cursor, [])
  | .Char _ => ({e with pending := .none}, cursor, [])
  | _ => ({e with pending := .none}, cursor, [])

/-- The motion arms of operator completion (the `handled = true` cases of
the `match ke.code` at `engine.rs` lines 249-297): `some end` when the key
resolves a motion end for the pending operator (with the `$`+Delete
one-past extension), `none` when it is unhandled. -/
def opMotionTarget (T : TextOps) (op : Operator) (cursor : Pos) (count : Nat)
    (kc : KeyCode) : Option Pos :=
  match kc with
  | .Char 'h' => some (T.move_left cursor count)
  | .Char 'l' => some (T.move_right cursor count)
  | .Char 'k' => some (T.move_up cursor count none)
  | .Char 'j' => some (T.move_down cursor count none)
  | .Char '0' => some (T.line_start cursor.line)
  | .Char '$' =>
      some (if op = .Delete then T.move_right (T.line_end cursor.line) 1
            else T.line_end cursor.line)
  | .Char 'w' => some (T.next_word_start cursor count)
  | .Char 'b' => some (T.prev_word_start cursor count)
  | .Char '{' => some (T.prev_paragraph_start cursor count)
  | .Char '}' => some (T.next_paragraph_start cursor count)
  | _ => none

/-- The state mutation of the unhandled arms of the same `match`: `f`/`t`
enter the find-pending state (with `handled = false`); every other
unhandled key leaves the engine as is. -/
def opMotionPending (e1 : Engine) (kc : KeyCode) : Engine :=
  match kc with
  | .Char 'f' => {e1 with pending := .F false}
  | .Char 't' => {e1 with pending := .F true}
  | _ => e1

/-- Normal mode, step 3: operator completion (`engine.rs` lines 243-310).
If an operator is pending the key is tried as a motion
(`opMotionTarget`); `f`/`t` set the find-pending state instead
(`opMotionPending`); an unhandled key falls through to the key table with
the count already consumed. -/
def normalOpStep (T : TextOps) (e : Engine) (cursor : Pos) (kc : KeyCode) :
    Engine × Pos × List Command :=
  match e.op_pending with
  | some op =>
      let r0 := e.counts.take_or 1
      let e1 := {e with counts := r0.2}
      match opMotionTarget T op cursor r0.1 kc with
      | some endp =>
          let cmds := match op with
            | .Delete => apply_delete cursor endp
            | .Yank => []
          let new_cursor := if posLe cursor endp then cursor else endp
          ({e1 with op_pending := none}, new_cursor, cmds)
      | none =>
          normalKeyTable T (opMotionPending e1 kc) cursor kc
  | none => normalKeyTable T e cursor kc

/-- Normal mode, step 2: digit accumulation (`engine.rs` lines 224-241).
A lone `0` with no count and no operator is the line-start motion; `0`
with an operator pending falls through as a motion; any other digit is
pushed onto the count. -/
def normalDigits (T : TextOps) (e : Engine) (cursor : Pos) (kc : KeyCode) :
    Engine × Pos × List Command :=
  match kc with
  | .Char c =>
      if isAsciiDigit c then
        if c = '0' ∧ e.counts.current = none ∧ e.op_pending = none then
          let pos := T.line_start cursor.line
          ({e with preferred_col := some 0}, pos, [.SetCursor pos])
        else if c = '0' ∧ e.counts.current = none then
          normalOpStep T e cursor kc
        else
          ({e with counts := e.counts.push_digit (c.toNat - 48)}, cursor, [])
      else normalOpStep T e cursor kc
  | _ => normalOpStep T e cursor kc

/-- Normal mode, step 1: pending-key continuation (`engine.rs` lines
158-222): `gg`, `dd` and `f`/`t` + target handling; any other
combination clears the pending key and re-enters the dispatch. -/
def normalStep (T : TextOps) (e : Engine) (cursor : Pos) (kc : KeyCode) :
    Engine × Pos × List Command :=
  match e.pending, kc with
  | .G, .Char 'g' =>
      let e1 := {e with pending := .none}
      let target := match e1.counts.current with
        | some n => if n > 0 then min (n - 1) (T.line_count - 1) else 0
        | none => 0
      let pos := T.line_start target
      ({e1 with counts := ⟨none⟩, preferred_col := some 0}, pos, [.SetCursor pos])
  | .D, .Char 'd' =>
      let e1 := {e with pending := .none, op_pending := none}
      let r := e1.counts.take_or 1
      let start := T.line_start cursor.line
      let end_line := min (cursor.line + r.1 - 1) (T.line_count - 1)
      let en := T.line_end end_line
      let end_pos : Pos := ⟨en.line + 1, 0⟩
      ({e1 with counts := r.2}, start, apply_delete start end_pos)
  | .F b, .Char ch =>
      let e1 := {e with pending := .none}
      let r := e1.counts.take_or 1
      let e2 := {e1 with counts := r.2}
      match T.find_in_line cursor ch b r.1 with
      | some pos =>
          match e2.op_pending with
          | some op =>
              let cmds := match op with
                | .Delete =>
                    let en := if b then pos else T.move_right pos 1
                    apply_delete cursor en
                | .Yank => []
              ({e2 with op_pending := none}, cursor, cmds)
          | none =>
              ({e2 with preferred_col := none}, pos, [.SetCursor pos])
      | none =>
          ({e2 with op_pending := none}, cursor, [])
  | _, _ =>
      normalDigits T (if e.pending = .none then e else {e with pending := .none}) cursor kc

/-- Visual mode: recompute the selection from the anchor and the new
cursor after a motion; with no anchor the Rust code falls through to the
trailing `(cursor, vec![])`. -/
def visualUpdateSel (T : TextOps) (e : Engine) (kind : VisualKind)
    (cursor new_cursor : Pos) : Engine × Pos × List Command :=
  match e.visual_anchor with
  | some anchor =>
      let sel : Selection :=
        match kind with
        | .CharWise =>
            if posLe anchor new_cursor then ⟨anchor, new_cursor, .CharWise⟩
            else ⟨new_cursor, anchor, .CharWise⟩
        | .LineWise =>
            let lo := min anchor.line new_cursor.line
            let hi := max anchor.line new_cursor.line
            ⟨T.line_start lo, T.line_end hi, .LineWise⟩
      (e, new_cursor, [.SetCursor new_cursor, .SetSelection (some sel)])
  | none => (e, cursor, [])

/-- The `gg`/`G` arms of the Visual movement group (`engine.rs` lines
570-598): `g` completes a pending `gg` or sets the pending key and
returns early; `G` goes to the (count?) line — the count was already
consumed by the group's `take_or`, so `counts.current` is `None` here.
Any other key of the group's inner `match` falls to its `_ => cursor`
arm. -/
def visualMoveG (T : TextOps) (e1 : Engine) (cursor : Pos) (kind : VisualKind)
    (kc : KeyCode) : Engine × Pos × List Command :=
  match kc with
  | .Char 'g' =>
      if e1.pending = .G then
        let e2 := {e1 with pending := .none}
        let target := match e2.counts.current with
          | some n => if n > 0 then min (n - 1) (T.line_count - 1) else 0
          | none => 0
        visualUpdateSel T {e2 with counts := ⟨none⟩, preferred_col := some 0}
          kind cursor (T.line_start target)
      else
        ({e1 with pending := .G}, cursor, [])
  | .Char 'G' =>
      let target := match e1.counts.current with
        | some n => if n > 0 then min (n - 1) (T.line_count - 1) else T.line_count - 1
        | none => T.line_count - 1
      visualUpdateSel T {e1 with counts := ⟨none⟩, preferred_col := some 0}
        kind cursor (T.line_start target)
  | _ => visualUpdateSel T e1 kind cursor cursor

/-- The inner `match ke.code` of the Visual movement group (`engine.rs`
lines 549-616), computing the new cursor and preferred-column update for
the plain motions; `g`/`G` are delegated to `visualMoveG`. -/
def visualMove (T : TextOps) (e1 : Engine) (cursor : Pos) (kind : VisualKind)
    (kc : KeyCode) (count : Nat) : Engine × Pos × List Command :=
  match kc with
  | .Char 'h' => visualUpdateSel T e1 kind cursor (T.move_left cursor count)
  | .Char 'l' => visualUpdateSel T e1 kind cursor (T.move_right cursor count)
  | .Char 'k' =>
      let p := T.move_up cursor count e1.preferred_col
      visualUpdateSel T {e1 with preferred_col := some p.col} kind cursor p
  | .Char 'j' =>
      let p := T.move_down cursor count e1.preferred_col
      visualUpdateSel T {e1 with preferred_col := some p.col} kind cursor p
  | .Char '0' =>
      visualUpdateSel T {e1 with preferred_col := some 0} kind cursor
        (T.line_start cursor.line)
  | .Char '$' =>
      visualUpdateSel T {e1 with preferred_col := none} kind cursor
        (T.line_end cursor.line)
  | .Char 'w' =>
      visualUpdateSel T {e1 with preferred_col := none} kind cursor
        (T.next_word_start cursor count)
  | .Char 'b' =>
      visualUpdateSel T {e1 with preferred_col := none} kind cursor
        (T.prev_word_start cursor count)
  | .Char '{' =>
      visualUpdateSel T {e1 with preferred_col := some 0} kind cursor
        (T.prev_paragraph_start cursor count)
  | .Char '}' =>
      visualUpdateSel T {e1 with preferred_col := some 0} kind cursor
        (T.next_paragraph_start cursor count)
  | _ => visualMoveG T e1 cursor kind kc

/-- The `d` arm of Visual mode (`engine.rs` lines 657-692). -/
def visualDelete (T : TextOps) (e : Engine) (cursor : Pos) (kind : VisualKind) :
    Engine × Pos × List Command :=
  match e.visual_anchor with
  | some anchor =>
      let se : Pos × Pos :=
        match kind with
        | .CharWise =>
            let lo := if posLe anchor cursor then anchor else cursor
            let hi := if posLe anchor cursor then cursor else anchor
            (lo, T.move_right hi 1)
        | .LineWise =>
            let lo := min anchor.line cursor.line
            let hi := max anchor.line cursor.line
            (T.line_start lo, ⟨hi + 1, 0⟩)
      ({e with mode := .Normal, visual_anchor := none}, se.1,
       apply_delete se.1 se.2 ++ [.SetSelection none])
  | none => (e, cursor, [])

/-- The `V` arm of Visual mode (`engine.rs` lines 507-534): toggle off
from LineWise, else switch to LineWise and recompute the selection. -/
def visualUppercaseV (T : TextOps) (e : Engine) (cursor : Pos) (kind : VisualKind) :
    Engine × Pos × List Command :=
  if kind = .LineWise then
    ({e with mode := .Normal, visual_anchor := none}, cursor, [.SetSelection none])
  else
    let e1 := {e with mode := .Visual .LineWise}
    match e1.visual_anchor with
    | some anchor =>
        let lo := min anchor.line cursor.line
        let hi := max anchor.line cursor.line
        (e1, cursor,
         [.SetSelection (some ⟨T.line_start lo, T.line_end hi, .LineWise⟩)])
    | none => (e1, cursor, [])

/-- The `v` arm of Visual mode (`engine.rs` lines 501-506): toggle off
from CharWise (the arm is guarded; in LineWise `v` falls to the trailing
`(cursor, vec![])`). -/
def visualLowercaseV (e : Engine) (cursor : Pos) (kind : VisualKind) :
    Engine × Pos × List Command :=
  if kind = .CharWise then
    ({e with mode := .Normal, visual_anchor := none}, cursor, [.SetSelection none])
  else (e, cursor, [])

/-- Entry to the Visual movement group (`engine.rs` line 548): the count
is consumed with `take_or` before the motion is resolved. -/
def visualMoveEntry (T : TextOps) (e : Engine) (cursor : Pos) (kind : VisualKind)
    (kc : KeyCode) : Engine × Pos × List Command :=
  let r := e.counts.take_or 1
  visualMove T {e with counts := r.2} cursor kind kc r.1

/-- Visual mode dispatch (`engine.rs` lines 492-699).  The movement-group
keys (`h j k l 0 $ g G w b { }`) share one Rust arm; here each literal
dispatches to the shared `visualMoveEntry`. -/
def visualStep (T : TextOps) (e : Engine) (cursor : Pos) (kind : VisualKind)
    (kc : KeyCode) : Engine × Pos × List Command :=
  match kc with
  | .Esc =>
      ({e with mode := .Normal, visual_anchor := none, pending := .none},
       cursor, [.SetSelection none])
  | .Char 'v' => visualLowercaseV e cursor kind
  | .Char 'V' => visualUppercaseV T e cursor kind
  | .Char 'h' => visualMoveEntry T e cursor kind (.Char 'h')
  | .Char 'j' => visualMoveEntry T e cursor kind (.Char 'j')
  | .Char 'k' => visualMoveEntry T e cursor kind (.Char 'k')
  | .Char 'l' => visualMoveEntry T e cursor kind (.Char 'l')
  | .Char '0' => visualMoveEntry T e cursor kind (.Char '0')
  | .Char '$' => visualMoveEntry T e cursor kind (.Char '$')
  | .Char 'g' => visualMoveEntry T e cursor kind (.Char 'g')
  | .Char 'G' => visualMoveEntry T e cursor kind (.Char 'G')
  | .Char 'w' => visualMoveEntry T e cursor kind (.Char 'w')
  | .Char 'b' => visualMoveEntry T e cursor kind (.Char 'b')
  | .Char '{' => visualMoveEntry T e cursor kind (.Char '{')
  | .Char '}' => visualMoveEntry T e cursor kind (.Char '}')
  | .Char 'd' => visualDelete T e cursor kind
  | .Char _ => (e, cursor, [])
  | _ => (e, cursor, [])

/-- `Engine::handle_event` (`engine.rs` lines 124-703): clamp the cursor,
then dispatch by mode.  The `&mut self` receiver becomes the returned
engine; the returned pair mirrors the Rust `(Position, Vec<Command>)`. -/
def handle_event (e : Engine) (T : TextOps) (cursor0 : Pos) (input : InputEvent) :
    Engine × Pos × List Command :=
  let cursor := T.clamp cursor0
  match e.mode, input with
  | .Insert, .key ke =>
      match ke.code with
      | .Esc => ({e with mode := .Normal}, cursor, [])
      | _ => (e, cursor, [])
  | .Insert, .receivedChar ch =>
      (e, ⟨cursor.line, cursor.col + 1⟩, [.InsertText cursor (String.singleton ch)])
  | .Normal, .key ke => normalStep T e cursor ke.code
  | .Visual kind, .key ke => visualStep T e cursor kind ke.code
  | _, _ => (e, cursor, [])

/-- Feed a list of input events through the engine, threading the engine
state and the returned cursor (as the test suites do); emitted commands
are applied by the host and not accumulated here. -/
def runEvents (T : TextOps) : Engine → Pos → List InputEvent → Engine × Pos
  | e, c, [] => (e, c)
  | e, c, i :: rest =>
      let r := handle_event e T c i
      runEvents T r.1 r.2.1 rest

/-!
A small concrete host.  `TextOps` is a host-supplied capability (the spec
treats text storage as out of scope, §4.B only states contracts), so this
fixture is not an embedding of engine code: it implements the contract on
ASCII line lists — on ASCII text one grapheme is one `Char` — following the
behaviour of the repository's test host `tests/support/mock_buffer.rs`
(ropey line splitting, strictly-after `find_in_line` that ignores the
advisory `before` flag and returns the occurrence's own position, wrap-around
`search_forward`).  Word and paragraph motions are simple contract-conforming
implementations; no theorem below depends on them.
-/

/-- The lines of a buffer, ropey-style: split at every newline, keeping a
final (possibly empty) piece after the last newline, each line without its
trailing newline.  Out-of-range lines read as empty. -/
def lineStr (lines : List String) (l : Nat) : String := lines.getD l ""

/-- The count-th occurrence of `ch` at an index `≥ start` in the given
character list (indices counted from `idx`). -/
def findInLineAux (chs : List Char) (ch : Char) (idx start k : Nat) : Option Nat :=
  match chs with
  | [] => none
  | c :: rest =>
      if start ≤ idx ∧ c = ch then
        if k ≤ 1 then some idx else findInLineAux rest ch (idx + 1) start (k - 1)
      else findInLineAux rest ch (idx + 1) start k

/-- `slice_to_string` on a line list: single-line ranges take the column
slice; multi-line ranges take the start line's tail, the middle lines with
their newlines (the final buffer line has none), and the stop line's head. -/
def sliceLines (lines : List String) (r : Range) : String :=
  if r.start = r.stop then "" else
  if r.start.line = r.stop.line then
    let gs := (lineStr lines r.start.line).toList
    let endCol := min r.stop.col gs.length
    String.mk ((gs.drop r.start.col).take (endCol - r.start.col))
  else
    let first := (lineStr lines r.start.line).toList.drop r.start.col
    let mids := (List.range' (r.start.line + 1) (r.stop.line - (r.start.line + 1))).map
      (fun i => lineStr lines i ++ if i = lines.length - 1 then "" else "\n")
    let lastPart :=
      if r.stop.line < lines.length then
        let ls := (lineStr lines r.stop.line).toList
        String.mk (ls.take (min r.stop.col ls.length))
      else ""
    String.mk first ++ "\n" ++ String.join mids ++ lastPart

/-- First column in `[startCol, stopCol)` where `nd` is a prefix of the
line's suffix. -/
def searchCols (s nd : List Char) (startCol stopCol : Nat) : Option Nat :=
  ((List.range' startCol (stopCol - startCol)).filter
    (fun c => nd.isPrefixOf (s.drop c))).head?

/-- Last such column (for backward search). -/
def searchColsLast (s nd : List Char) (startCol stopCol : Nat) : Option Nat :=
  ((List.range' startCol (stopCol - startCol)).filter
    (fun c => nd.isPrefixOf (s.drop c))).getLast?

/-- `search_forward` on a line list: scan strictly after `p` to the end of
the buffer, then (if `wrap`) from the top back to `p`. -/
def searchFwdLines (lines : List String) (p : Pos) (needle : String) (wrap : Bool) :
    Option Pos :=
  if needle = "" then none else
  let nd := needle.toList
  let primary := ((List.range' p.line (lines.length - p.line)).filterMap (fun l =>
      let s := (lineStr lines l).toList
      let startCol := if l = p.line then p.col + 1 else 0
      (searchCols s nd startCol s.length).map (fun c => Pos.mk l c))).head?
  match primary with
  | some hit => some hit
  | none =>
      if wrap then
        ((List.range' 0 (p.line + 1)).filterMap (fun l =>
          let s := (lineStr lines l).toList
          let endCol := if l = p.line then p.col + 1 else s.length
          (searchCols s nd 0 endCol).map (fun c => Pos.mk l c))).head?
      else none

/-- `search_backward` on a line list (mirror image of the forward scan). -/
def searchBwdLines (lines : List String) (p : Pos) (needle : String) (wrap : Bool) :
    Option Pos :=
  if needle = "" then none else
  let nd := needle.toList
  let primary := (((List.range (p.line + 1)).reverse).filterMap (fun l =>
      let s := (lineStr lines l).toList
      let endCol := if l = p.line then p.col else s.length
      (searchColsLast s nd 0 endCol).map (fun c => Pos.mk l c))).head?
  match primary with
  | some hit => some hit
  | none =>
      if wrap then
        (((List.range' p.line (lines.length - p.line)).reverse).filterMap (fun l =>
          let s := (lineStr lines l).toList
          let startCol := if l = p.line then p.col else 0
          (searchColsLast s nd startCol s.length).map (fun c => Pos.mk l c))).head?
      else none

/-- Word characters: alphanumeric or underscore. -/
def isWordChar (c : Char) : Bool := c.isAlphanum || c == '_'

/-- Columns of the line that start a word (a word char not preceded by
a word char). -/
def wordStartsIn (s : List Char) : List Nat :=
  (List.range s.length).filter (fun j =>
    isWordChar (s.getD j ' ') && (j == 0 || !isWordChar (s.getD (j - 1) ' ')))

/-- One step of the next-word motion (simple, contract-conforming). -/
def asciiNextWord (lines : List String) (p : Pos) : Pos :=
  let s := (lineStr lines p.line).toList
  match ((wordStartsIn s).filter (fun j => p.col < j)).head? with
  | some j => ⟨p.line, j⟩
  | none => if p.line + 1 < lines.length then ⟨p.line + 1, 0⟩ else p

/-- One step of the previous-word motion (simple, contract-conforming). -/
def asciiPrevWord (lines : List String) (p : Pos) : Pos :=
  let s := (lineStr lines p.line).toList
  match ((wordStartsIn s).filter (fun j => j < p.col)).getLast? with
  | some j => ⟨p.line, j⟩
  | none => if p.line = 0 then ⟨0, 0⟩ else ⟨p.line - 1, 0⟩

/-- A blank (trimmed-empty) line. -/
def isBlankLine (lines : List String) (l : Nat) : Bool :=
  (lineStr lines l).toList.all (fun c => c.isWhitespace)

/-- One step of the next-paragraph motion: the first non-blank line that
follows a blank line after `p.line`, else the last line. -/
def asciiNextPara (lines : List String) (p : Pos) : Pos :=
  let n := lines.length
  match ((List.range' (p.line + 1) (n - (p.line + 1))).filter (fun l =>
      !isBlankLine lines l && isBlankLine lines (l - 1))).head? with
  | some l => ⟨l, 0⟩
  | none => ⟨n - 1, 0⟩

/-- One step of the previous-paragraph motion. -/
def asciiPrevPara (lines : List String) (p : Pos) : Pos :=
  match (((List.range p.line).filter (fun l =>
      !isBlankLine lines l && (l = 0 ∨ isBlankLine lines (l - 1)))).getLast?) with
  | some l => ⟨l, 0⟩
  | none => ⟨0, 0⟩

/-- Iterate a motion step `count` times. -/
def iterateN (f : Pos → Pos) : Nat → Pos → Pos
  | 0, p => p
  | n + 1, p => iterateN f n (f p)

/-- The concrete ASCII host (see the section comment above). -/
def asciiBuffer (lines : List String) : TextOps where
  line_count := lines.length
  line_len := fun l => (lineStr lines l).length
  move_left := fun p c => ⟨p.line, p.col - c⟩
  move_right := fun p c => ⟨p.line, min (p.col + c) (lineStr lines p.line).length⟩
  move_up := fun p c pref =>
    let line := p.line - c
    let width := (lineStr lines line).length
    ⟨line, if width > 0 then min (pref.getD p.col) (width - 1) else 0⟩
  move_down := fun p c pref =>
    let line := min (p.line + c) (lines.length - 1)
    let width := (lineStr lines line).length
    ⟨line, if width > 0 then min (pref.getD p.col) (width - 1) else 0⟩
  line_start := fun l => ⟨l, 0⟩
  line_end := fun l => ⟨l, (lineStr lines l).length - 1⟩
  next_word_start := fun p c => iterateN (asciiNextWord lines) c p
  prev_word_start := fun p c => iterateN (asciiPrevWord lines) c p
  next_paragraph_start := fun p c => iterateN (asciiNextPara lines) c p
  prev_paragraph_start := fun p c => iterateN (asciiPrevPara lines) c p
  find_in_line := fun p ch _b k =>
    if k = 0 then none
    else (findInLineAux (lineStr lines p.line).toList ch 0 (p.col + 1) k).map
      (fun j => ⟨p.line, j⟩)
  slice_to_string := fun r => sliceLines lines r
  search_forward := fun p nd w => searchFwdLines lines p nd w
  search_backward := fun p nd w => searchBwdLines lines p nd w

/-!
Spec-modelled components.  The repository's full engine implements yank and
the search prompt — `tests/yank_paste.rs` and `tests/search_tests.rs` call a
`handle_event(&buf, &mut clipboard, cursor, event)` that takes a `Clipboard`,
`types.rs` declares `Mode::SearchPrompt`, and `traits.rs` declares
`slice_to_string`/`search_forward`/`Clipboard` — but the `engine.rs` under
`src/` is an earlier phase: its `Operator::Yank` arms return `vec![]`
("implement in Phase 4"), it takes no clipboard, and its mode match has no
`SearchPrompt` arm.  The missing behaviour is modelled here from the spec.
-/

/-- Modelled from the spec: the yank resolution that `engine.rs` leaves
unimplemented.  §4.E step 1: "`Y` + `Char('y')` → linewise yank same span
(no Delete emitted); clipboard gets `slice_to_string(range)` with a trailing
newline preserved" — the span is the same `count?else 1`-line span as `dd`.
The result is the composed range together with the new cursor, the emitted
commands, and the text stored to the clipboard. -/
def spec_yank_yy (T : TextOps) (cursor : Pos) (count : Option Nat) :
    Range × Pos × List Command × String :=
  let n := max (count.getD 1) 1
  let end_line := min (cursor.line + n - 1) (T.line_count - 1)
  let range : Range := ⟨T.line_start cursor.line, ⟨end_line + 1, 0⟩⟩
  (range, range.start, [], T.slice_to_string range)

/-- Modelled from the spec: operator × motion composition for Yank
(§4.H): given the resolved (already inclusive/exclusive-adjusted) motion
end `m`, the range is the normalized `[low, high)`; "Yank emits no Delete
but copies `slice_to_string(range)` to the clipboard.  In both cases the
new cursor is `range.start`." -/
def spec_yank_motion (T : TextOps) (cursor m : Pos) :
    Range × Pos × List Command × String :=
  let range : Range := if posLe cursor m then ⟨cursor, m⟩ else ⟨m, cursor⟩
  (range, range.start, [], T.slice_to_string range)

/-- Recognizer for `Delete` commands. -/
def isDeleteCmd : Command → Bool
  | .Delete _ => true
  | _ => false

/-- Modelled from the spec: the search-related engine state (§3: fields
`search_query`, `last_search`, `search_resume_cursor`) that the `src/`
`engine.rs` does not yet carry. -/
structure SearchEngine where
  smode : Mode
  search_query : String
  last_search : Option (String × Bool)
  search_resume_cursor : Pos
deriving DecidableEq

/-- Modelled from the spec: the SearchPrompt lifecycle missing from
`engine.rs` (§4.E Normal-mode `/` row and SearchPrompt mode, §4.J):
`/` enters SearchPrompt saving the resume cursor and clearing the query;
`ReceivedChar` appends; `Backspace` pops; `Enter` commits via
`search_forward(cursor, query, wrap=true)`, moving the cursor and recording
`last_search` on a hit and keeping the cursor on a miss, then returns to
Normal and clears the query; `Esc` cancels, restoring the resume cursor. -/
def spec_search_handle (T : TextOps) (s : SearchEngine) (cursor : Pos)
    (input : InputEvent) : SearchEngine × Pos :=
  match s.smode, input with
  | .Normal, .key ⟨.Char '/', _⟩ =>
      ({s with
          smode := .SearchPrompt
          search_resume_cursor := cursor
          search_query := ""}, cursor)
  | .SearchPrompt, .receivedChar ch =>
      ({s with search_query := s.search_query.push ch}, cursor)
  | .SearchPrompt, .key ⟨.Backspace, _⟩ =>
      ({s with search_query := s.search_query.dropRight 1}, cursor)
  | .SearchPrompt, .key ⟨.Enter, _⟩ =>
      if s.search_query = "" then
        ({s with smode := .Normal, search_query := ""}, cursor)
      else
        match T.search_forward cursor s.search_query true with
        | some p =>
            ({s with
                smode := .Normal
                search_query := ""
                last_search := some (s.search_query, true)}, p)
        | none =>
            ({s with smode := .Normal, search_query := ""}, cursor)
  | .SearchPrompt, .key ⟨.Esc, _⟩ =>
      ({s with smode := .Normal, search_query := ""}, s.search_resume_cursor)
  | _, _ => (s, cursor)

/-- Feed a list of input events through the spec-modelled search engine. -/
def runSearch (T : TextOps) : SearchEngine → Pos → List InputEvent → SearchEngine × Pos
  | s, c, [] => (s, c)
  | s, c, i :: rest =>
      let r := spec_search_handle T s c i
      runSearch T r.1 r.2 rest

/-- `visual_anchor` is Some exactly on Visual modes. -/
def isVisualMode : Mode → Bool
  | .Visual _ => true
  | _ => false

/-- The spec §3 invariant "`visual_anchor` is Some iff `mode` is Visual". -/
def AnchorInv (e : Engine) : Prop :=
  e.visual_anchor.isSome = isVisualMode e.mode

/-- The count is never a stored zero: `counts.current` is `none` or `≥ 1`. -/
def CountInv (e : Engine) : Prop :=
  ∀ v, e.counts.current = some v → 1 ≤ v

/-! Shared helper lemmas. -/

/-- `posLe` in arithmetic form. -/
theorem posLe_iff (a b : Pos) :
    posLe a b = true ↔ (a.line < b.line ∨ (a.line = b.line ∧ a.col ≤ b.col)) := by
  simp [posLe, Nat.blt_eq, Nat.ble_eq]

/-- `apply_delete` on an already ordered pair. -/
theorem apply_delete_of_le (s e : Pos) (h : posLe s e = true) :
    apply_delete s e = [.Delete ⟨s, e⟩] := by
  simp [apply_delete, h]

/-- A character whose code is 48 is `'0'`. -/
theorem char_eq_zero_of_toNat (c : Char) (h : c.toNat = 48) : c = '0' := by
  have h2 := Char.ofNat_toNat c
  rw [h] at h2
  have h3 : Char.ofNat 48 = '0' := by decide
  rw [← h2, h3]

/-!
C1.  Spec claim: Esc in Normal mode clears all four transient fields —
count, pending_key, op_pending and preferred_col — so that no operator
remains pending.  The code (`engine.rs` lines 478-483) clears only count,
pending and preferred_col: `op_pending` survives Esc, so after `d`, `Esc`
the operator is still pending and a following `j` deletes.  The claim is
right (the spec's key table and §8 invariants both demand the clear, and
`test_operator_escape_cancels` documents the intent); the code is the slip.
-/

/-- C1: code evaluation at the failing input.  On buffer `"ab\ncd"` from
`Engine::new`, after events `d`, `Esc` the engine still has
`op_pending = Some(Delete)` — contradicting "no operator remains pending
afterwards" — and the next `j` consequently emits a `Delete` command
instead of a bare cursor motion. -/
theorem C1_esc_op_pending_code_eval :
    (runEvents (asciiBuffer ["ab", "cd"]) Engine.new ⟨0, 0⟩ [keyC 'd', keyEsc]).1.op_pending
      = some .Delete
    ∧ (handle_event (runEvents (asciiBuffer ["ab", "cd"]) Engine.new ⟨0, 0⟩
        [keyC 'd', keyEsc]).1 (asciiBuffer ["ab", "cd"]) ⟨0, 0⟩ (keyC 'j')).2
      = (⟨0, 0⟩, [.Delete ⟨⟨0, 0⟩, ⟨1, 0⟩⟩]) :=
  ⟨rfl, rfl⟩

/-!
C7.  Spec claim: standalone `t<ch>` moves one grapheme left of the match,
under the `find_in_line` contract that the capability returns the
occurrence's own position (`before` advisory).  The code (`engine.rs`
lines 205-209) returns `find_in_line`'s result unadjusted, and the host
honouring that contract (as `tests/support/mock_buffer.rs` does — it
ignores `before` and "always returns the position of the found
character") therefore lands the cursor ON the match.  The test
`till_char_forward` (`t`,`w` on `"hello world"` expects column 5) fails
against this code, which yields column 6: the claim is right and the code
contradicts its own test.
-/

/-- C7: code evaluation at the failing input.  On `"hello world"` with
cursor (0,0), events `t`, `w` move the cursor to (0,6) — the position of
the `w` itself — not to (0,5) one grapheme before it as the claim and the
repository's own test `till_char_forward` require. -/
theorem C7_till_standalone_eval :
    (runEvents (asciiBuffer ["hello world"]) Engine.new ⟨0, 0⟩ [keyC 't', keyC 'w']).2
      = ⟨0, 6⟩
    ∧ (Pos.mk 0 6 ≠ Pos.mk 0 5) :=
  ⟨rfl, by decide⟩

/-!
C6.  Spec claim: line-grained motions (`j`/`k`, `gg`/`G` when the target
line differs, `{`/`}`) combined with Delete extend the range to whole
lines `[(low.line,0),(high.line+1,0))`.  The code does no such extension:
`d`+motion composes the plain charwise range (`engine.rs` lines 299-307),
and the repository's own `test_dj_deletes_down` asserts exactly the
charwise end line.  `gg`/`G` with an operator pending do not compose at
all — they move the cursor and leave the operator pending.
-/

/-- C6 counterexample: on `"line one\nline two\nline three"` with cursor
(0,0), events `d`, `j` emit `Delete{[(0,0),(1,0))}` — the charwise range —
and not the full-line extension `[(0,0),(2,0))` the claim requires. -/
theorem C6_fullline_counterexample :
    (handle_event (runEvents (asciiBuffer ["line one", "line two", "line three"])
        Engine.new ⟨0, 0⟩ [keyC 'd']).1
        (asciiBuffer ["line one", "line two", "line three"]) ⟨0, 0⟩ (keyC 'j')).2.2
      = [.Delete ⟨⟨0, 0⟩, ⟨1, 0⟩⟩]
    ∧ ([Command.Delete ⟨⟨0, 0⟩, ⟨1, 0⟩⟩] ≠ [Command.Delete ⟨⟨0, 0⟩, ⟨2, 0⟩⟩]) :=
  ⟨rfl, by decide⟩

/-!
C9.  Spec claim: `visual_anchor` is Some iff `mode` is Visual, for every
initial state from the constructor and the builder (any initial mode) and
preserved by `handle_event`.  `EngineBuilder::build` (`engine.rs` lines
73-82) always sets `visual_anchor: None`, so building with a Visual
initial mode violates the invariant; it does hold for non-Visual initial
modes and is preserved by every `handle_event` call.
-/

/-- C9 counterexample: the builder with initial mode `Visual(CharWise)`
produces an engine whose mode is Visual but whose `visual_anchor` is
None, falsifying "visual_anchor is Some iff mode is Visual" for that
builder-produced initial state. -/
theorem C9_builder_visual_counterexample :
    ¬ AnchorInv (EngineBuilder.mk (.Visual .CharWise)).build := by
  unfold AnchorInv EngineBuilder.build isVisualMode
  decide

/-!
C4.  `dd` linewise delete (`engine.rs` lines 171-187): confirmed.
-/

/-- C4: in Normal mode with pending `d`, a second `d` deletes n =
count-or-1 whole lines: with the cursor in bounds, the host's
`line_start`/`line_end` behaving per contract, and the span not clamped
by the buffer end, the engine emits exactly one
`Delete{[(line,0),(line+n,0))}`, clears count, op_pending and pending,
and returns cursor `(line,0)`; and concretely on buffer `"a\nb\nc\nd\n"`
with cursor (1,0), events `2`,`d`,`d` yield new cursor (1,0) and the
single command `Delete{[(1,0),(3,0))}`. -/
theorem C4_dd_linewise :
    (∀ (T : TextOps) (e : Engine) (cursor : Pos),
      e.mode = .Normal → e.pending = .D →
      T.clamp cursor = cursor →
      (∀ l, T.line_start l = ⟨l, 0⟩) →
      (∀ l, (T.line_end l).line = l) →
      cursor.line + (max (e.counts.current.getD 1) 1) - 1 ≤ T.line_count - 1 →
      (handle_event e T cursor (keyC 'd')).2.2
        = [.Delete ⟨⟨cursor.line, 0⟩, ⟨cursor.line + (max (e.counts.current.getD 1) 1), 0⟩⟩]
      ∧ (handle_event e T cursor (keyC 'd')).2.1 = ⟨cursor.line, 0⟩
      ∧ (handle_event e T cursor (keyC 'd')).1.counts.current = none
      ∧ (handle_event e T cursor (keyC 'd')).1.op_pending = none
      ∧ (handle_event e T cursor (keyC 'd')).1.pending = .none)
    ∧ (handle_event (runEvents (asciiBuffer ["a", "b", "c", "d", ""]) Engine.new ⟨1, 0⟩
        [keyC '2', keyC 'd']).1 (asciiBuffer ["a", "b", "c", "d", ""]) ⟨1, 0⟩ (keyC 'd')).2
      = (⟨1, 0⟩, [.Delete ⟨⟨1, 0⟩, ⟨3, 0⟩⟩]) := by
  constructor
  · intro T e cursor hm hp hcl hls hle hno
    obtain ⟨m, pc, ⟨cnt⟩, pk, op, va⟩ := e
    simp only at hm hp hno
    subst hm hp
    set n := max (cnt.getD 1) 1 with hn
    have hn1 : 1 ≤ n := le_max_right _ 1
    simp only [handle_event, normalStep, keyC, Counts.take_or, apply_delete, hcl, hls]
    rw [Nat.min_eq_left hno]
    have hlin : (T.line_end (cursor.line + n - 1)).line = cursor.line + n - 1 := hle _
    rw [hlin]
    have h2 : cursor.line + n - 1 + 1 = cursor.line + n := by omega
    rw [h2]
    have hple : posLe ⟨cursor.line, 0⟩ ⟨cursor.line + n, 0⟩ = true := by
      simp [posLe_iff]
      omega
    simp [hple]
  · rfl

/-- C4 witness: the general statement applied to the concrete host
`asciiBuffer ["a","b","c","d",""]` and the engine state reached after
keys `2`, `d` (count 2, pending `d`, Delete operator pending). -/
theorem C4_dd_linewise_witness :
    (handle_event ⟨.Normal, none, ⟨some 2⟩, .D, some .Delete, none⟩
        (asciiBuffer ["a", "b", "c", "d", ""]) ⟨1, 0⟩ (keyC 'd')).2.2
      = [.Delete ⟨⟨1, 0⟩, ⟨3, 0⟩⟩]
    ∧ (handle_event ⟨.Normal, none, ⟨some 2⟩, .D, some .Delete, none⟩
        (asciiBuffer ["a", "b", "c", "d", ""]) ⟨1, 0⟩ (keyC 'd')).2.1 = ⟨1, 0⟩ := by
  have h := C4_dd_linewise.1 (asciiBuffer ["a", "b", "c", "d", ""])
    ⟨.Normal, none, ⟨some 2⟩, .D, some .Delete, none⟩ ⟨1, 0⟩
    rfl rfl rfl (fun _ => rfl) (fun _ => rfl) (by decide)
  exact ⟨h.1, h.2.1⟩

/-!
C5.  Delete-pending inclusive/exclusive composition (`engine.rs` lines
188-204 and 265-271): confirmed.
-/

set_option maxHeartbeats 1000000 in
/-- C5: with the Delete operator pending, `$` composes the range with the
end one grapheme past `line_end` (deleting through the last character);
`f<ch>` composes `[cursor, match+1)`; `t<ch>` composes `[cursor, match)`
with no extension — where `find_in_line` returns the occurrence's own
position per its contract (strictly after the cursor on the same line). -/
theorem C5_delete_inclusive :
    (∀ (T : TextOps) (e : Engine) (cursor : Pos) (L : Nat),
      e.mode = .Normal → e.pending = .none → e.op_pending = some .Delete →
      T.clamp cursor = cursor →
      T.line_end cursor.line = ⟨cursor.line, L⟩ →
      T.move_right ⟨cursor.line, L⟩ 1 = ⟨cursor.line, L + 1⟩ →
      cursor.col ≤ L →
      (handle_event e T cursor (keyC '$')).2.2
        = [.Delete ⟨cursor, ⟨cursor.line, L + 1⟩⟩]
      ∧ (handle_event e T cursor (keyC '$')).2.1 = cursor
      ∧ (handle_event e T cursor (keyC '$')).1.op_pending = none)
    ∧ (∀ (T : TextOps) (e : Engine) (cursor mpos : Pos) (ch : Char),
      e.mode = .Normal → e.pending = .F false → e.op_pending = some .Delete →
      T.clamp cursor = cursor →
      T.find_in_line cursor ch false (max (e.counts.current.getD 1) 1) = some mpos →
      mpos.line = cursor.line → cursor.col < mpos.col →
      T.move_right mpos 1 = ⟨mpos.line, mpos.col + 1⟩ →
      (handle_event e T cursor (keyC ch)).2.2
        = [.Delete ⟨cursor, ⟨mpos.line, mpos.col + 1⟩⟩]
      ∧ (handle_event e T cursor (keyC ch)).2.1 = cursor
      ∧ (handle_event e T cursor (keyC ch)).1.op_pending = none)
    ∧ (∀ (T : TextOps) (e : Engine) (cursor mpos : Pos) (ch : Char),
      e.mode = .Normal → e.pending = .F true → e.op_pending = some .Delete →
      T.clamp cursor = cursor →
      T.find_in_line cursor ch true (max (e.counts.current.getD 1) 1) = some mpos →
      mpos.line = cursor.line → cursor.col < mpos.col →
      (handle_event e T cursor (keyC ch)).2.2 = [.Delete ⟨cursor, mpos⟩]
      ∧ (handle_event e T cursor (keyC ch)).2.1 = cursor
      ∧ (handle_event e T cursor (keyC ch)).1.op_pending = none) := by
  refine ⟨?_, ?_, ?_⟩
  · intro T e cursor L hm hp ho hcl hle hmr hcol
    obtain ⟨m, pc, ⟨cnt⟩, pk, op', va⟩ := e
    simp only at hm hp ho
    subst hm hp ho
    have hple : posLe cursor ⟨cursor.line, L + 1⟩ = true := by
      simp [posLe_iff]
      omega
    have hdig : isAsciiDigit '$' = false := by decide
    simp only [handle_event, normalStep, normalDigits, normalOpStep, opMotionTarget,
      keyC, Counts.take_or, apply_delete, hcl, hdig, hle, hmr]
    simp [hple]
  · intro T e cursor mpos ch hm hp ho hcl hfind hline hcol hmr
    obtain ⟨m, pc, ⟨cnt⟩, pk, op', va⟩ := e
    simp only at hm hp ho hfind
    subst hm hp ho
    have hple : posLe cursor ⟨mpos.line, mpos.col + 1⟩ = true := by
      simp [posLe_iff, hline]
      omega
    simp only [handle_event, normalStep, keyC, Counts.take_or, apply_delete,
      hcl, hfind, hmr]
    simp [hple]
  · intro T e cursor mpos ch hm hp ho hcl hfind hline hcol
    obtain ⟨m, pc, ⟨cnt⟩, pk, op', va⟩ := e
    simp only at hm hp ho hfind
    subst hm hp ho
    have hple : posLe cursor mpos = true := by
      simp [posLe_iff, hline]
      omega
    simp only [handle_event, normalStep, keyC, Counts.take_or, apply_delete,
      hcl, hfind]
    simp [hple]

/-- C5 witness: the three parts applied on the host
`asciiBuffer ["hello world"]`: `d`,`$` at (0,5) deletes `[(0,5),(0,11))`;
`d`,`f`,`w` at (0,0) deletes `[(0,0),(0,7))` (match at column 6, end
extended); `d`,`t`,`w` deletes `[(0,0),(0,6))` (no extension). -/
theorem C5_delete_inclusive_witness :
    (handle_event ⟨.Normal, none, ⟨none⟩, .none, some .Delete, none⟩
        (asciiBuffer ["hello world"]) ⟨0, 5⟩ (keyC '$')).2.2
      = [.Delete ⟨⟨0, 5⟩, ⟨0, 11⟩⟩]
    ∧ (handle_event ⟨.Normal, none, ⟨none⟩, .F false, some .Delete, none⟩
        (asciiBuffer ["hello world"]) ⟨0, 0⟩ (keyC 'w')).2.2
      = [.Delete ⟨⟨0, 0⟩, ⟨0, 7⟩⟩]
    ∧ (handle_event ⟨.Normal, none, ⟨none⟩, .F true, some .Delete, none⟩
        (asciiBuffer ["hello world"]) ⟨0, 0⟩ (keyC 'w')).2.2
      = [.Delete ⟨⟨0, 0⟩, ⟨0, 6⟩⟩] := by
  refine ⟨?_, ?_, ?_⟩
  · exact (C5_delete_inclusive.1 (asciiBuffer ["hello world"])
      ⟨.Normal, none, ⟨none⟩, .none, some .Delete, none⟩ ⟨0, 5⟩ 10
      rfl rfl rfl rfl rfl rfl (by decide)).1
  · exact (C5_delete_inclusive.2.1 (asciiBuffer ["hello world"])
      ⟨.Normal, none, ⟨none⟩, .F false, some .Delete, none⟩ ⟨0, 0⟩ ⟨0, 6⟩ 'w'
      rfl rfl rfl rfl rfl rfl (by decide) rfl).1
  · exact (C5_delete_inclusive.2.2 (asciiBuffer ["hello world"])
      ⟨.Normal, none, ⟨none⟩, .F true, some .Delete, none⟩ ⟨0, 0⟩ ⟨0, 6⟩ 'w'
      rfl rfl rfl rfl rfl rfl (by decide)).1

/-!
C8.  `find_in_line` miss with an operator pending (`engine.rs` lines
210-214): confirmed.
-/

set_option maxHeartbeats 1000000 in
/-- C8: in Normal mode with an operator pending and a pending `f`/`t`
find, a missed `find_in_line` clears `op_pending`, returns the (in-bounds)
cursor unchanged, and emits no commands; the pending key is consumed and
the mode stays Normal. -/
theorem C8_find_miss (T : TextOps) (e : Engine) (cursor : Pos) (b : Bool)
    (ch : Char) (op : Operator)
    (hm : e.mode = .Normal) (hp : e.pending = .F b) (ho : e.op_pending = some op)
    (hcl : T.clamp cursor = cursor)
    (hmiss : T.find_in_line cursor ch b (max (e.counts.current.getD 1) 1) = none) :
    (handle_event e T cursor (keyC ch)).2.1 = cursor
    ∧ (handle_event e T cursor (keyC ch)).2.2 = []
    ∧ (handle_event e T cursor (keyC ch)).1.op_pending = none
    ∧ (handle_event e T cursor (keyC ch)).1.pending = .none
    ∧ (handle_event e T cursor (keyC ch)).1.mode = .Normal := by
  obtain ⟨m, pc, ⟨cnt⟩, pk, op', va⟩ := e
  simp only at hm hp ho hmiss
  subst hm hp ho
  simp only [handle_event, normalStep, keyC, Counts.take_or, hcl, hmiss]
  refine ⟨?_, ?_, ?_, ?_, ?_⟩ <;> trivial

/-- C8 witness: `d`,`f`,`z` on `"hello world"` — `z` does not occur after
the cursor, so the engine stays at (0,0), emits nothing, and drops the
pending Delete. -/
theorem C8_find_miss_witness :
    (handle_event ⟨.Normal, none, ⟨none⟩, .F false, some .Delete, none⟩
        (asciiBuffer ["hello world"]) ⟨0, 0⟩ (keyC 'z')).2.1 = ⟨0, 0⟩
    ∧ (handle_event ⟨.Normal, none, ⟨none⟩, .F false, some .Delete, none⟩
        (asciiBuffer ["hello world"]) ⟨0, 0⟩ (keyC 'z')).2.2 = []
    ∧ (handle_event ⟨.Normal, none, ⟨none⟩, .F false, some .Delete, none⟩
        (asciiBuffer ["hello world"]) ⟨0, 0⟩ (keyC 'z')).1.op_pending = none := by
  have h := C8_find_miss (asciiBuffer ["hello world"])
    ⟨.Normal, none, ⟨none⟩, .F false, some .Delete, none⟩ ⟨0, 0⟩ false 'z' .Delete
    rfl rfl rfl rfl rfl
  exact ⟨h.1, h.2.1, h.2.2.1⟩

set_option maxHeartbeats 1000000 in
/-- C6 amended: with the Delete operator pending, the motions `j`, `k`,
`{`, `}` compose the plain charwise range between the cursor and the raw
motion target — ordered endpoints, no extension to whole lines — and
`G` (and a completed `gg`) with an operator pending do not compose at
all: the cursor moves and the operator stays pending with no Delete
emitted. -/
theorem C6_charwise_compose :
    (∀ (T : TextOps) (e : Engine) (cursor : Pos),
      e.mode = .Normal → (e.pending = .D ∨ e.pending = .none) →
      e.op_pending = some .Delete → T.clamp cursor = cursor →
      ((handle_event e T cursor (keyC 'j')).2.2
        = apply_delete cursor (T.move_down cursor (max (e.counts.current.getD 1) 1) none)
      ∧ (handle_event e T cursor (keyC 'j')).1.op_pending = none)
      ∧ ((handle_event e T cursor (keyC 'k')).2.2
        = apply_delete cursor (T.move_up cursor (max (e.counts.current.getD 1) 1) none)
      ∧ (handle_event e T cursor (keyC 'k')).1.op_pending = none)
      ∧ ((handle_event e T cursor (keyC '{')).2.2
        = apply_delete cursor (T.prev_paragraph_start cursor (max (e.counts.current.getD 1) 1))
      ∧ (handle_event e T cursor (keyC '{')).1.op_pending = none)
      ∧ ((handle_event e T cursor (keyC '}')).2.2
        = apply_delete cursor (T.next_paragraph_start cursor (max (e.counts.current.getD 1) 1))
      ∧ (handle_event e T cursor (keyC '}')).1.op_pending = none))
    ∧ (∀ (T : TextOps) (e : Engine) (cursor : Pos),
      e.mode = .Normal → (e.pending = .D ∨ e.pending = .none) →
      e.op_pending = some .Delete → T.clamp cursor = cursor →
      (handle_event e T cursor (keyC 'G')).2.2
        = [.SetCursor (T.line_start (T.line_count - 1))]
      ∧ (handle_event e T cursor (keyC 'G')).1.op_pending = some .Delete)
    ∧ (∀ (T : TextOps) (e : Engine) (cursor : Pos),
      e.mode = .Normal → e.pending = .G → e.counts.current = none →
      e.op_pending = some .Delete → T.clamp cursor = cursor →
      (handle_event e T cursor (keyC 'g')).2.2 = [.SetCursor (T.line_start 0)]
      ∧ (handle_event e T cursor (keyC 'g')).1.op_pending = some .Delete) := by
  refine ⟨?_, ?_, ?_⟩
  · intro T e cursor hm hpd ho hcl
    obtain ⟨m, pc, ⟨cnt⟩, pk, op', va⟩ := e
    simp only at hm hpd ho
    subst hm ho
    rcases hpd with hpd | hpd <;> subst hpd <;>
      refine ⟨⟨?_, ?_⟩, ⟨?_, ?_⟩, ⟨?_, ?_⟩, ⟨?_, ?_⟩⟩ <;>
      first
      | rfl
      | (show (normalOpStep T ⟨.Normal, pc, ⟨cnt⟩, .none, some .Delete, va⟩
            (T.clamp cursor) (.Char 'j')).2.2 = _
         rw [hcl]
         rfl)
      | (show (normalOpStep T ⟨.Normal, pc, ⟨cnt⟩, .none, some .Delete, va⟩
            (T.clamp cursor) (.Char 'k')).2.2 = _
         rw [hcl]
         rfl)
      | (show (normalOpStep T ⟨.Normal, pc, ⟨cnt⟩, .none, some .Delete, va⟩
            (T.clamp cursor) (.Char '{')).2.2 = _
         rw [hcl]
         rfl)
      | (show (normalOpStep T ⟨.Normal, pc, ⟨cnt⟩, .none, some .Delete, va⟩
            (T.clamp cursor) (.Char '}')).2.2 = _
         rw [hcl]
         rfl)
  · intro T e cursor hm hpd ho hcl
    obtain ⟨m, pc, ⟨cnt⟩, pk, op', va⟩ := e
    simp only at hm hpd ho
    subst hm ho
    rcases hpd with hpd | hpd <;> subst hpd <;> exact ⟨rfl, rfl⟩
  · intro T e cursor hm hp hcnt ho hcl
    obtain ⟨m, pc, ⟨cnt⟩, pk, op', va⟩ := e
    simp only at hm hp hcnt ho
    subst hm hp hcnt ho
    exact ⟨rfl, rfl⟩

/-- C6 amended witness: the `d`,`j` scenario of the counterexample,
through the amended statement — charwise `Delete{[(0,0),(1,0))}` — and
`d`,`G`: the cursor jumps to the last line with the Delete operator still
pending and no Delete emitted. -/
theorem C6_charwise_compose_witness :
    (handle_event ⟨.Normal, none, ⟨none⟩, .D, some .Delete, none⟩
        (asciiBuffer ["line one", "line two", "line three"]) ⟨0, 0⟩ (keyC 'j')).2.2
      = [.Delete ⟨⟨0, 0⟩, ⟨1, 0⟩⟩]
    ∧ (handle_event ⟨.Normal, none, ⟨none⟩, .D, some .Delete, none⟩
        (asciiBuffer ["line one", "line two", "line three"]) ⟨0, 0⟩ (keyC 'G')).1.op_pending
      = some .Delete := by
  constructor
  · have h := (C6_charwise_compose.1 (asciiBuffer ["line one", "line two", "line three"])
      ⟨.Normal, none, ⟨none⟩, .D, some .Delete, none⟩ ⟨0, 0⟩
      rfl (Or.inl rfl) rfl rfl).1.1
    exact h
  · exact (C6_charwise_compose.2.1 (asciiBuffer ["line one", "line two", "line three"])
      ⟨.Normal, none, ⟨none⟩, .D, some .Delete, none⟩ ⟨0, 0⟩
      rfl (Or.inl rfl) rfl rfl).2

/-!
C2.  Yank (spec-modelled: the `src/` engine leaves `Operator::Yank`
unimplemented; `tests/yank_paste.rs` exercises the full behaviour).
-/

/-- C2: for every yank — `y`,`y` (linewise span of count-or-1 lines) or
`y` + a resolved motion — the spec-modelled resolution emits no Delete
command, stores `slice_to_string` of the composed range to the clipboard,
and returns a new cursor equal to `range.start`; concretely, `yy` on
`"line one\nline two\n"` at (0,0) stores `"line one\n"` — the trailing
newline is preserved. -/
theorem C2_yank_spec :
    (∀ (T : TextOps) (cursor : Pos) (count : Option Nat),
      ((spec_yank_yy T cursor count).2.2.1.filter isDeleteCmd = [])
      ∧ (spec_yank_yy T cursor count).2.2.2
          = T.slice_to_string (spec_yank_yy T cursor count).1
      ∧ (spec_yank_yy T cursor count).2.1 = (spec_yank_yy T cursor count).1.start)
    ∧ (∀ (T : TextOps) (cursor m : Pos),
      ((spec_yank_motion T cursor m).2.2.1.filter isDeleteCmd = [])
      ∧ (spec_yank_motion T cursor m).2.2.2
          = T.slice_to_string (spec_yank_motion T cursor m).1
      ∧ (spec_yank_motion T cursor m).2.1 = (spec_yank_motion T cursor m).1.start)
    ∧ (spec_yank_yy (asciiBuffer ["line one", "line two", ""]) ⟨0, 0⟩ none).2.2.2
        = "line one\n" := by
  refine ⟨?_, ?_, ?_⟩
  · intro T cursor count
    exact ⟨rfl, rfl, rfl⟩
  · intro T cursor m
    exact ⟨rfl, rfl, rfl⟩
  · rfl

/-- C2 witness: the general statements applied to the concrete host —
`2yy` at line 0 of `"line one\nline two\n"` yanks `"line one\nline two\n"`
with no Delete, and `y` with motion end (0,4) yanks `"line"` and moves to
the range start. -/
theorem C2_yank_spec_witness :
    ((spec_yank_yy (asciiBuffer ["line one", "line two", ""]) ⟨0, 0⟩
        (some 2)).2.2.1.filter isDeleteCmd = [])
    ∧ (spec_yank_yy (asciiBuffer ["line one", "line two", ""]) ⟨0, 0⟩ (some 2)).2.2.2
        = "line one\nline two\n"
    ∧ ((spec_yank_motion (asciiBuffer ["line one", "line two", ""]) ⟨0, 0⟩
        ⟨0, 4⟩).2.2.1.filter isDeleteCmd = [])
    ∧ (spec_yank_motion (asciiBuffer ["line one", "line two", ""]) ⟨0, 0⟩ ⟨0, 4⟩).2.1
        = ⟨0, 0⟩ := by
  have h1 := C2_yank_spec.1 (asciiBuffer ["line one", "line two", ""]) ⟨0, 0⟩ (some 2)
  have h2 := C2_yank_spec.2.1 (asciiBuffer ["line one", "line two", ""]) ⟨0, 0⟩ ⟨0, 4⟩
  refine ⟨h1.1, ?_, h2.1, ?_⟩
  · rw [h1.2.1]
    rfl
  · rw [h2.2.2]
    rfl

/-!
C3.  Search prompt lifecycle (spec-modelled: `types.rs` declares
`Mode::SearchPrompt` and `tests/search_tests.rs` exercises it, but the
`src/` engine's mode dispatch has no SearchPrompt arm).
-/

/-- C3: `/` in Normal mode enters SearchPrompt, saves
`search_resume_cursor`, clears the query and keeps the cursor; and from
SearchPrompt with a non-empty query, Enter commits via
`search_forward(cursor, query, wrap=true)` — on a hit it moves the cursor
to the hit and records `last_search = {needle: query, forward: true}`, on
a miss it keeps the cursor and the previous `last_search` — and in both
cases the mode returns to Normal and the query is cleared. -/
theorem C3_search_spec :
    (∀ (T : TextOps) (s : SearchEngine) (cursor : Pos),
      s.smode = .Normal →
      (spec_search_handle T s cursor (keyC '/')).1.smode = .SearchPrompt
      ∧ (spec_search_handle T s cursor (keyC '/')).1.search_resume_cursor = cursor
      ∧ (spec_search_handle T s cursor (keyC '/')).1.search_query = ""
      ∧ (spec_search_handle T s cursor (keyC '/')).2 = cursor)
    ∧ (∀ (T : TextOps) (s : SearchEngine) (cursor : Pos),
      s.smode = .SearchPrompt → s.search_query ≠ "" →
      (spec_search_handle T s cursor keyEnter).1.smode = .Normal
      ∧ (spec_search_handle T s cursor keyEnter).1.search_query = ""
      ∧ (match T.search_forward cursor s.search_query true with
         | some p =>
             (spec_search_handle T s cursor keyEnter).2 = p
             ∧ (spec_search_handle T s cursor keyEnter).1.last_search
                 = some (s.search_query, true)
         | none =>
             (spec_search_handle T s cursor keyEnter).2 = cursor
             ∧ (spec_search_handle T s cursor keyEnter).1.last_search
                 = s.last_search)) := by
  constructor
  · intro T s cursor hm
    obtain ⟨sm, q, ls, rc⟩ := s
    simp only at hm
    subst hm
    exact ⟨rfl, rfl, rfl, rfl⟩
  · intro T s cursor hm hq
    obtain ⟨sm, q, ls, rc⟩ := s
    simp only at hm hq
    subst hm
    simp only [spec_search_handle, keyEnter, hq, if_false]
    cases hsf : T.search_forward cursor q true <;> simp [hsf]

/-- C3 witness: spec scenario 5 on
`"first\nsecond foo\nthird line"` — `/` then typing `l`,`i`,`n`,`e` builds
the query "line" in SearchPrompt, and Enter moves the cursor to (2,6)
recording `last_search = ("line", true)`. -/
theorem C3_search_spec_witness :
    (runSearch (asciiBuffer ["first", "second foo", "third line"])
        ⟨.Normal, "", none, ⟨0, 0⟩⟩ ⟨1, 8⟩
        [keyC '/', .receivedChar 'l', .receivedChar 'i', .receivedChar 'n',
         .receivedChar 'e']).1
      = ⟨.SearchPrompt, "line", none, ⟨1, 8⟩⟩
    ∧ (spec_search_handle (asciiBuffer ["first", "second foo", "third line"])
        ⟨.SearchPrompt, "line", none, ⟨1, 8⟩⟩ ⟨1, 8⟩ keyEnter).2 = ⟨2, 6⟩
    ∧ (spec_search_handle (asciiBuffer ["first", "second foo", "third line"])
        ⟨.SearchPrompt, "line", none, ⟨1, 8⟩⟩ ⟨1, 8⟩ keyEnter).1.smode = .Normal
    ∧ (spec_search_handle (asciiBuffer ["first", "second foo", "third line"])
        ⟨.SearchPrompt, "line", none, ⟨1, 8⟩⟩ ⟨1, 8⟩ keyEnter).1.last_search
      = some ("line", true) := by
  have h := C3_search_spec.2 (asciiBuffer ["first", "second foo", "third line"])
    ⟨.SearchPrompt, "line", none, ⟨1, 8⟩⟩ ⟨1, 8⟩ rfl (by decide)
  have hsf : (asciiBuffer ["first", "second foo", "third line"]).search_forward
      ⟨1, 8⟩ "line" true = some ⟨2, 6⟩ := rfl
  rw [hsf] at h
  exact ⟨rfl, h.2.2.1, h.1, h.2.2.2⟩

/-!
Invariant-preservation lemmas, shared by the C9 and C10 claims: each
follows the dispatch structure of `handle_event`.
-/

set_option maxHeartbeats 1600000

/-- `visualUpdateSel` never changes the engine. -/
theorem visualUpdateSel_fst (T : TextOps) (e : Engine) (k : VisualKind) (c n : Pos) :
    (visualUpdateSel T e k c n).1 = e := by
  unfold visualUpdateSel
  split <;> rfl

/-- `opMotionPending` only touches the pending key. -/
theorem opMotionPending_fields (e1 : Engine) (kc : KeyCode) :
    (opMotionPending e1 kc).mode = e1.mode
    ∧ (opMotionPending e1 kc).visual_anchor = e1.visual_anchor
    ∧ (opMotionPending e1 kc).counts = e1.counts := by
  refine ⟨?_, ?_, ?_⟩ <;> (unfold opMotionPending; split <;> rfl)

/-- `visualMoveG` keeps mode and anchor. -/
theorem visualMoveG_fields (T : TextOps) (e1 : Engine) (cursor : Pos)
    (kind : VisualKind) (kc : KeyCode) :
    (visualMoveG T e1 cursor kind kc).1.mode = e1.mode
    ∧ (visualMoveG T e1 cursor kind kc).1.visual_anchor = e1.visual_anchor := by
  refine ⟨?_, ?_⟩ <;>
    (unfold visualMoveG; split <;> (try split) <;> simp [visualUpdateSel_fst])

/-- `visualMove` keeps mode and anchor. -/
theorem visualMove_fields (T : TextOps) (e1 : Engine) (cursor : Pos)
    (kind : VisualKind) (kc : KeyCode) (count : Nat) :
    (visualMove T e1 cursor kind kc count).1.mode = e1.mode
    ∧ (visualMove T e1 cursor kind kc count).1.visual_anchor = e1.visual_anchor := by
  refine ⟨?_, ?_⟩ <;>
    (unfold visualMove; split <;>
      simp [visualUpdateSel_fst, (visualMoveG_fields T _ cursor kind _).1,
        (visualMoveG_fields T _ cursor kind _).2])

/-- The anchor invariant through the Normal-mode key table. -/
theorem anchorInv_keyTable (T : TextOps) (e : Engine) (cursor : Pos) (kc : KeyCode)
    (hm : e.mode = .Normal) (h : AnchorInv e) :
    AnchorInv (normalKeyTable T e cursor kc).1 := by
  unfold normalKeyTable
  split <;> (try split) <;> simp_all [AnchorInv, isVisualMode, apply_ite]

/-- The anchor invariant through operator completion. -/
theorem anchorInv_opStep (T : TextOps) (e : Engine) (cursor : Pos) (kc : KeyCode)
    (hm : e.mode = .Normal) (h : AnchorInv e) :
    AnchorInv (normalOpStep T e cursor kc).1 := by
  unfold normalOpStep
  split
  · rename_i op heq
    dsimp only
    rcases htg : opMotionTarget T op cursor (Counts.take_or e.counts 1).1 kc with _ | endp <;>
      simp only [htg]
    · apply anchorInv_keyTable
      · rw [(opMotionPending_fields _ kc).1]
        exact hm
      · unfold AnchorInv
        rw [(opMotionPending_fields _ kc).1,
          (opMotionPending_fields ({e with counts := (Counts.take_or e.counts 1).2}) kc).2.1]
        exact h
    · simp_all [AnchorInv, isVisualMode]
  · exact anchorInv_keyTable T e cursor kc hm h

/-- The anchor invariant through digit accumulation. -/
theorem anchorInv_digits (T : TextOps) (e : Engine) (cursor : Pos) (kc : KeyCode)
    (hm : e.mode = .Normal) (h : AnchorInv e) :
    AnchorInv (normalDigits T e cursor kc).1 := by
  unfold normalDigits
  split
  · split
    · split
      · simp_all [AnchorInv, isVisualMode]
      · split
        · exact anchorInv_opStep T e cursor _ hm h
        · simp_all [AnchorInv, isVisualMode]
    · exact anchorInv_opStep T e cursor _ hm h
  · exact anchorInv_opStep T e cursor _ hm h

/-- The anchor invariant through the Normal-mode dispatch. -/
theorem anchorInv_normalStep (T : TextOps) (e : Engine) (cursor : Pos) (kc : KeyCode)
    (hm : e.mode = .Normal) (h : AnchorInv e) :
    AnchorInv (normalStep T e cursor kc).1 := by
  unfold normalStep
  split
  · simp_all [AnchorInv, isVisualMode]
  · simp_all [AnchorInv, isVisualMode]
  · rename_i b ch heq
    dsimp only
    rcases hf : T.find_in_line cursor ch b (Counts.take_or e.counts 1).1 with _ | pos <;>
      simp only [hf] <;>
      rcases e.op_pending with _ | op
    · simp_all [AnchorInv, isVisualMode]
    · simp_all [AnchorInv, isVisualMode]
    · simp_all [AnchorInv, isVisualMode]
    · simp_all [AnchorInv, isVisualMode]
  · split
    · exact anchorInv_digits T e cursor _ hm h
    · apply anchorInv_digits T _ cursor _
      · exact hm
      · simp_all [AnchorInv, isVisualMode]

/-- The anchor invariant through the Visual `d` arm. -/
theorem anchorInv_visualDelete (T : TextOps) (e : Engine) (cursor : Pos)
    (kind : VisualKind) (h : AnchorInv e) :
    AnchorInv (visualDelete T e cursor kind).1 := by
  unfold visualDelete
  rcases ha : e.visual_anchor with _ | anchor <;> simp_all [AnchorInv, isVisualMode]

/-- The anchor invariant through the Visual `V` arm. -/
theorem anchorInv_visualUppercaseV (T : TextOps) (e : Engine) (cursor : Pos)
    (kind : VisualKind) (hm : e.mode = .Visual kind) (h : AnchorInv e) :
    AnchorInv (visualUppercaseV T e cursor kind).1 := by
  unfold visualUppercaseV
  split
  · simp_all [AnchorInv, isVisualMode]
  · rcases ha : e.visual_anchor with _ | anchor <;> simp_all [AnchorInv, isVisualMode]

/-- The anchor invariant through the Visual-mode dispatch. -/
theorem anchorInv_visualStep (T : TextOps) (e : Engine) (cursor : Pos)
    (kind : VisualKind) (kc : KeyCode)
    (hm : e.mode = .Visual kind) (h : AnchorInv e) :
    AnchorInv (visualStep T e cursor kind kc).1 := by
  unfold visualStep
  split
  · simp_all [AnchorInv, isVisualMode]
  · unfold visualLowercaseV
    split <;> simp_all [AnchorInv, isVisualMode]
  · exact anchorInv_visualUppercaseV T e cursor kind hm h
  all_goals first
    | exact anchorInv_visualDelete T e cursor kind h
    | (unfold AnchorInv
       unfold visualMoveEntry
       rw [(visualMove_fields T _ cursor kind _ _).1,
         (visualMove_fields T _ cursor kind _ _).2]
       simp_all [AnchorInv, isVisualMode])
    | simp_all [AnchorInv, isVisualMode]

/-- The anchor invariant is preserved by every `handle_event` call. -/
theorem anchorInv_handle_event (T : TextOps) (e : Engine) (cursor : Pos)
    (input : InputEvent) (h : AnchorInv e) :
    AnchorInv (handle_event e T cursor input).1 := by
  unfold handle_event
  split
  · split <;> simp_all [AnchorInv, isVisualMode]
  · simp_all [AnchorInv, isVisualMode]
  · rename_i ke heq
    exact anchorInv_normalStep T e (T.clamp cursor) ke.code heq h
  · rename_i kind ke heq
    exact anchorInv_visualStep T e (T.clamp cursor) kind ke.code heq h
  · simp_all [AnchorInv, isVisualMode]

/-- The count invariant through the key table. -/
theorem countInv_keyTable (T : TextOps) (e : Engine) (cursor : Pos) (kc : KeyCode)
    (h : CountInv e) :
    CountInv (normalKeyTable T e cursor kc).1 := by
  unfold normalKeyTable
  split <;> (try split) <;> simp_all [CountInv, Counts.take_or, apply_ite]

/-- The count invariant through operator completion. -/
theorem countInv_opStep (T : TextOps) (e : Engine) (cursor : Pos) (kc : KeyCode)
    (h : CountInv e) :
    CountInv (normalOpStep T e cursor kc).1 := by
  unfold normalOpStep
  split
  · rename_i op heq
    dsimp only
    rcases htg : opMotionTarget T op cursor (Counts.take_or e.counts 1).1 kc with _ | endp <;>
      simp only [htg]
    · apply countInv_keyTable
      unfold CountInv
      rw [(opMotionPending_fields ({e with counts := (Counts.take_or e.counts 1).2}) kc).2.2]
      simp [Counts.take_or]
    · simp_all [CountInv, Counts.take_or]
  · exact countInv_keyTable T e cursor kc h

/-- The count invariant through digit accumulation: a pushed digit can
only produce a stored value ≥ 1 (a lone `0` never reaches the push). -/
theorem countInv_digits (T : TextOps) (e : Engine) (cursor : Pos) (kc : KeyCode)
    (h : CountInv e) :
    CountInv (normalDigits T e cursor kc).1 := by
  unfold normalDigits
  split
  · rename_i c
    split
    · rename_i hd
      split
      · simp_all [CountInv]
      · split
        · exact countInv_opStep T e cursor _ h
        · rename_i h1 h2
          unfold CountInv Counts.push_digit
          intro v hv
          simp only at hv
          injection hv with hv
          subst hv
          rcases hc : e.counts.current with _ | w
          · have hc0 : ¬ c = '0' := fun he => h2 ⟨he, hc⟩
            have hne : c.toNat ≠ 48 := fun he => hc0 (char_eq_zero_of_toNat c he)
            simp only [isAsciiDigit, Bool.and_eq_true, Nat.ble_eq] at hd
            simp only [hc, Option.getD]
            unfold U32MAX
            omega
          · have hw := h w hc
            simp only [hc, Option.getD]
            unfold U32MAX
            omega
    · exact countInv_opStep T e cursor _ h
  · exact countInv_opStep T e cursor _ h

/-- The count invariant through the Normal-mode dispatch. -/
theorem countInv_normalStep (T : TextOps) (e : Engine) (cursor : Pos) (kc : KeyCode)
    (h : CountInv e) :
    CountInv (normalStep T e cursor kc).1 := by
  unfold normalStep
  split
  · simp_all [CountInv]
  · simp_all [CountInv, Counts.take_or]
  · rename_i b ch heq
    dsimp only
    rcases hf : T.find_in_line cursor ch b (Counts.take_or e.counts 1).1 with _ | pos <;>
      simp only [hf] <;>
      rcases e.op_pending with _ | op
    · simp_all [CountInv, Counts.take_or]
    · simp_all [CountInv, Counts.take_or]
    · simp_all [CountInv, Counts.take_or]
    · simp_all [CountInv, Counts.take_or]
  · split
    · exact countInv_digits T e cursor _ h
    · apply countInv_digits T _ cursor _
      simp_all [CountInv]

/-- The count invariant through the Visual `gg`/`G` arms. -/
theorem countInv_visualMoveG (T : TextOps) (e1 : Engine) (cursor : Pos)
    (kind : VisualKind) (kc : KeyCode) (h : CountInv e1) :
    CountInv (visualMoveG T e1 cursor kind kc).1 := by
  unfold visualMoveG
  split <;> (try split) <;> simp_all [visualUpdateSel_fst, CountInv]

/-- The count invariant through the Visual movement group. -/
theorem countInv_visualMove (T : TextOps) (e1 : Engine) (cursor : Pos)
    (kind : VisualKind) (kc : KeyCode) (count : Nat) (h : CountInv e1) :
    CountInv (visualMove T e1 cursor kind kc count).1 := by
  unfold visualMove
  split <;>
    first
    | exact countInv_visualMoveG T e1 cursor kind _ h
    | simp_all [visualUpdateSel_fst, CountInv]

/-- The count invariant through the Visual-mode dispatch. -/
theorem countInv_visualStep (T : TextOps) (e : Engine) (cursor : Pos)
    (kind : VisualKind) (kc : KeyCode) (h : CountInv e) :
    CountInv (visualStep T e cursor kind kc).1 := by
  unfold visualStep
  split
  · simp_all [CountInv]
  · unfold visualLowercaseV
    split <;> simp_all [CountInv]
  · unfold visualUppercaseV
    split
    · simp_all [CountInv]
    · rcases ha : e.visual_anchor with _ | anchor <;> simp_all [CountInv]
  all_goals first
    | (unfold visualDelete
       rcases ha : e.visual_anchor with _ | anchor <;> simp_all [CountInv])
    | (unfold visualMoveEntry
       apply countInv_visualMove
       simp [CountInv, Counts.take_or])
    | simp_all [CountInv]

/-- The count invariant is preserved by every `handle_event` call. -/
theorem countInv_handle_event (T : TextOps) (e : Engine) (cursor : Pos)
    (input : InputEvent) (h : CountInv e) :
    CountInv (handle_event e T cursor input).1 := by
  unfold handle_event
  split
  · split <;> simp_all [CountInv]
  · simp_all [CountInv]
  · rename_i ke heq
    exact countInv_normalStep T e (T.clamp cursor) ke.code h
  · rename_i kind ke heq
    exact countInv_visualStep T e (T.clamp cursor) kind ke.code h
  · simp_all [CountInv]

/-- The count invariant is preserved along any event sequence. -/
theorem countInv_runEvents (T : TextOps) (e : Engine) (cursor : Pos)
    (events : List InputEvent) (h : CountInv e) :
    CountInv (runEvents T e cursor events).1 := by
  induction events generalizing e cursor with
  | nil => exact h
  | cons i rest ih =>
      exact ih _ _ (countInv_handle_event T e cursor i h)

/-!
C9 (amended).  The anchor invariant holds for the constructor and for
builder-produced states with a non-Visual initial mode, and is preserved
by every `handle_event` call; the builder with a Visual initial mode is
the exception shown in the counterexample.
-/

/-- C9 amended: `visual_anchor` is Some iff `mode` is Visual holds for
`Engine::new` and for every builder-produced initial state whose initial
mode is not Visual, and is preserved by every `handle_event` call from
any state where it holds, for every host, cursor and input. -/
theorem C9_anchor_invariant :
    AnchorInv Engine.new
    ∧ (∀ m : Mode, isVisualMode m = false → AnchorInv (EngineBuilder.mk m).build)
    ∧ (∀ (T : TextOps) (e : Engine) (cursor : Pos) (input : InputEvent),
        AnchorInv e → AnchorInv (handle_event e T cursor input).1) := by
  refine ⟨rfl, ?_, ?_⟩
  · intro m hm
    unfold AnchorInv EngineBuilder.build
    simp [hm]
  · intro T e cursor input h
    exact anchorInv_handle_event T e cursor input h

/-- C9 witness: preservation applied at `Engine::new` on a concrete host
with the `v` key (which enters Visual mode and sets the anchor). -/
theorem C9_anchor_invariant_witness :
    AnchorInv (handle_event Engine.new (asciiBuffer ["hi"]) ⟨0, 0⟩ (keyC 'v')).1
    ∧ isVisualMode (handle_event Engine.new (asciiBuffer ["hi"]) ⟨0, 0⟩
        (keyC 'v')).1.mode = true :=
  ⟨C9_anchor_invariant.2.2 (asciiBuffer ["hi"]) Engine.new ⟨0, 0⟩ (keyC 'v') rfl, rfl⟩

/-!
C10.  The accumulated count is never a stored zero: confirmed.
-/

/-- C10: starting from `Engine::new`, after any event sequence on any
host the snapshot's `pending_count` is never `Some(0)`; and a lone `0`
in Normal mode with no count started, no operator pending (and no find
pending, which would capture the key) is the line-start motion — it
emits `SetCursor(line_start)`, leaves the count `None` and sets the
preferred column to 0 — rather than beginning a count. -/
theorem C10_count_never_zero :
    (∀ (T : TextOps) (cursor : Pos) (events : List InputEvent),
      ((runEvents T Engine.new cursor events).1.snapshot).pending_count ≠ some 0)
    ∧ (∀ (T : TextOps) (e : Engine) (cursor : Pos),
      e.mode = .Normal → (∀ b, e.pending ≠ .F b) →
      e.counts.current = none → e.op_pending = none →
      (handle_event e T cursor (keyC '0')).2.1 = T.line_start (T.clamp cursor).line
      ∧ (handle_event e T cursor (keyC '0')).2.2
          = [.SetCursor (T.line_start (T.clamp cursor).line)]
      ∧ (handle_event e T cursor (keyC '0')).1.counts.current = none
      ∧ (handle_event e T cursor (keyC '0')).1.preferred_col = some 0) := by
  constructor
  · intro T cursor events h0
    have hinv := countInv_runEvents T Engine.new cursor events
      (fun v hv => Option.noConfusion hv)
    exact absurd (hinv 0 h0) (by omega)
  · intro T e cursor hm hpf hcnt hop
    obtain ⟨m, pc, ⟨cnt⟩, pk, op, va⟩ := e
    simp only at hm hpf hcnt hop
    subst hm hcnt hop
    cases pk with
    | none => exact ⟨rfl, rfl, rfl, rfl⟩
    | G => exact ⟨rfl, rfl, rfl, rfl⟩
    | D => exact ⟨rfl, rfl, rfl, rfl⟩
    | F b => exact absurd rfl (hpf b)

/-- C10 witness: on a concrete host, after `2`, `0` the stored count is
20 (never 0) — the first part applied at that event list — and a lone
`0` from `Engine::new` is the line-start motion via the second part. -/
theorem C10_count_never_zero_witness :
    ((runEvents (asciiBuffer ["hello world"]) Engine.new ⟨0, 5⟩
        [keyC '2', keyC '0']).1.snapshot).pending_count ≠ some 0
    ∧ ((runEvents (asciiBuffer ["hello world"]) Engine.new ⟨0, 5⟩
        [keyC '2', keyC '0']).1.snapshot).pending_count = some 20
    ∧ (handle_event Engine.new (asciiBuffer ["hello world"]) ⟨0, 5⟩ (keyC '0')).2.2
        = [.SetCursor ⟨0, 0⟩] := by
  refine ⟨C10_count_never_zero.1 (asciiBuffer ["hello world"]) ⟨0, 5⟩
    [keyC '2', keyC '0'], rfl, ?_⟩
  exact (C10_count_never_zero.2 (asciiBuffer ["hello world"]) Engine.new ⟨0, 5⟩
    rfl (fun b h => PendingKey.noConfusion h) rfl rfl).2.1

end VimMini
